import Mathlib

/-!
# Verification of the neo-python API-server excerpt

A shallow embedding, in Lean 4, of the four source files of the excerpt:

* `neo/Network/Payloads/VersionPayload.py` — the handshake message codec
  (`VersionPayload.Serialize` / `VersionPayload.Deserialize`);
* `neo/api/utils.py` — the response pipeline (`json_response`, `cors_header`)
  and the bounded mapping `LimitedSizeDict`;
* `neo/api/JSONRPC/auth.py` — the credential guard
  (`BasicUserPassCredentialChecker`, `HTTPAuthRealm`,
  `guard_resource_with_http_auth`);
* `neo/bin/api_server.py` — the orchestrator's shutdown tail in `main`.

Machine integers are modelled as `Nat` with explicit bounds, byte strings as
`List Nat` (each element a byte value), and fallible decoding as `Except`.
The `BinaryReader` / `BinaryWriter` classes used by `VersionPayload` are not
part of the excerpt; where needed they are modelled from the spec (fixed-width
little-endian integers, variable-length `varint` string prefix of 1, 3, 5 or 9
bytes) and so marked.
-/

namespace NeoSpec

/-! ### Little-endian byte codec (reader/writer primitives) -/

/-- Modelled from the spec: the missing `BinaryWriter`'s fixed-width
little-endian integer encoding (`WriteUInt8` … `WriteUInt64`).
`toLE n v` is the `n`-byte little-endian encoding of `v`. -/
def toLE : Nat → Nat → List Nat
  | 0, _ => []
  | n + 1, v => v % 256 :: toLE n (v / 256)

/-- Modelled from the spec: the missing `BinaryReader`'s little-endian
reconstruction of an unsigned integer from its bytes. -/
def fromLE : List Nat → Nat
  | [] => 0
  | b :: bs => b + 256 * fromLE bs

/-- The decode-error taxonomy of the spec: `Truncated` when fewer bytes remain
than a field requires, `InvalidEncoding` for a malformed length prefix. -/
inductive DecodeError where
  | truncated
  | invalidEncoding
deriving DecidableEq

/-- A binary reader: consumes a prefix of the byte list and returns the decoded
value together with the remaining bytes, or fails. -/
def Reader (α : Type) : Type := List Nat → Except DecodeError (α × List Nat)

/-- Reader that consumes nothing. -/
def rpure {α : Type} (a : α) : Reader α := fun bs => .ok (a, bs)

/-- Sequencing of readers, threading the remaining bytes. -/
def rbind {α β : Type} (r : Reader α) (f : α → Reader β) : Reader β := fun bs =>
  match r bs with
  | .ok (a, rest) => f a rest
  | .error e => .error e

/-- Modelled from the spec: the missing `BinaryReader`'s raw byte read; fails
with `Truncated` when fewer than `n` bytes remain. -/
def readBytes (n : Nat) : Reader (List Nat) := fun bs =>
  if n ≤ bs.length then .ok (bs.take n, bs.drop n) else .error .truncated

/-- Modelled from the spec: `ReadUInt8` / `ReadUInt16` / `ReadUInt32` /
`ReadUInt64`, as an `n`-byte little-endian read. -/
def readUIntLE (n : Nat) : Reader Nat :=
  rbind (readBytes n) (fun l => rpure (fromLE l))

/-- Modelled from the spec: `ReadBool` reads one byte; nonzero is `true`. -/
def readBool : Reader Bool :=
  rbind (readBytes 1) (fun l => rpure (decide (fromLE l ≠ 0)))

/-- Modelled from the spec: `WriteBool` writes a single byte. -/
def writeBool (b : Bool) : List Nat := [if b then 1 else 0]

/-- Modelled from the spec: the compact-size variable-length unsigned-integer
encoding used for string length prefixes (1, 3, 5 or 9 bytes). -/
def writeVarInt (v : Nat) : List Nat :=
  if v < 253 then [v]
  else if v < 65536 then 253 :: toLE 2 v
  else if v < 4294967296 then 254 :: toLE 4 v
  else 255 :: toLE 8 v

/-- Dispatch on the first byte of a variable-length integer. -/
def varIntTail (b : Nat) : Reader Nat :=
  if b < 253 then rpure b
  else if b = 253 then readUIntLE 2
  else if b = 254 then readUIntLE 4
  else readUIntLE 8

/-- Modelled from the spec: `ReadVarInt`. -/
def readVarInt : Reader Nat := rbind (readUIntLE 1) varIntTail

/-- Modelled from the spec: `WriteVarString` writes the byte length as a
varint followed by the raw bytes. -/
def writeVarBytes (s : List Nat) : List Nat := writeVarInt s.length ++ s

/-- Modelled from the spec: `ReadVarString` reads a varint length then that
many raw bytes. -/
def readVarBytes : Reader (List Nat) := rbind readVarInt (fun n => readBytes n)

/-! ### The handshake message (`VersionPayload`) -/

/-- The fields of `VersionPayload`, in source order. `UserAgent` is modelled as
its UTF-8 byte sequence (Python stores the decoded string; the wire content is
exactly these bytes). -/
structure VersionPayload where
  Version : Nat
  Services : Nat
  Timestamp : Nat
  Port : Nat
  Nonce : Nat
  UserAgent : List Nat
  StartHeight : Nat
  Relay : Bool
deriving DecidableEq

/-- `VersionPayload.Serialize`: writes, in order, Version (UInt8), Services
(UInt64), Timestamp (UInt32), Port (UInt16), Nonce (UInt32), UserAgent
(varstring), StartHeight (UInt32), Relay (Bool). -/
def VersionPayload.Serialize (x : VersionPayload) : List Nat :=
  toLE 1 x.Version ++ toLE 8 x.Services ++ toLE 4 x.Timestamp ++ toLE 2 x.Port ++
    toLE 4 x.Nonce ++ writeVarBytes x.UserAgent ++ toLE 4 x.StartHeight ++
    writeBool x.Relay

/-- `VersionPayload.Deserialize`: reads the same eight fields in the same
order. -/
def VersionPayload.Deserialize : Reader VersionPayload :=
  rbind (readUIntLE 1) fun version =>
  rbind (readUIntLE 8) fun services =>
  rbind (readUIntLE 4) fun timestamp =>
  rbind (readUIntLE 2) fun port =>
  rbind (readUIntLE 4) fun nonce =>
  rbind readVarBytes fun userAgent =>
  rbind (readUIntLE 4) fun startHeight =>
  rbind readBool fun relay =>
  rpure ⟨version, services, timestamp, port, nonce, userAgent, startHeight, relay⟩

/-- Validity of a `VersionPayload`: every field representable in its fixed
width, the user-agent bytes actual byte values, and its length expressible by
the varint prefix. -/
def ValidVP (x : VersionPayload) : Prop :=
  x.Version < 2 ^ 8 ∧ x.Services < 2 ^ 64 ∧ x.Timestamp < 2 ^ 32 ∧
    x.Port < 2 ^ 16 ∧ x.Nonce < 2 ^ 32 ∧ x.UserAgent.length < 2 ^ 64 ∧
    (∀ b ∈ x.UserAgent, b < 256) ∧ x.StartHeight < 2 ^ 32

instance (x : VersionPayload) : Decidable (ValidVP x) := by
  unfold ValidVP; infer_instance

/-! ### Reader correctness infrastructure -/

/-- `r` reads exactly the bytes `w` off the front of any input, producing `v`. -/
def ReadsPrefix {α : Type} (r : Reader α) (w : List Nat) (v : α) : Prop :=
  ∀ rest, r (w ++ rest) = .ok (v, rest)

/-- `r` fails with `Truncated` on every strict prefix of `w`. -/
def TruncOn {α : Type} (r : Reader α) (w : List Nat) : Prop :=
  ∀ k, k < w.length → r (w.take k) = .error .truncated

theorem rpure_reads {α : Type} (a : α) : ReadsPrefix (rpure a) [] a :=
  fun _ => rfl

theorem truncOn_nil {α : Type} (r : Reader α) : TruncOn r [] := by
  intro k hk
  simp at hk

theorem rbind_reads {α β : Type} {r : Reader α} {f : α → Reader β}
    {w1 w2 : List Nat} {v1 : α} {v2 : β}
    (h1 : ReadsPrefix r w1 v1) (h2 : ReadsPrefix (f v1) w2 v2) :
    ReadsPrefix (rbind r f) (w1 ++ w2) v2 := by
  intro rest
  show rbind r f ((w1 ++ w2) ++ rest) = .ok (v2, rest)
  rw [List.append_assoc]
  unfold rbind
  rw [h1 (w2 ++ rest)]
  exact h2 rest

theorem rbind_trunc {α β : Type} {r : Reader α} {f : α → Reader β}
    {w1 w2 : List Nat} {v1 : α}
    (h1 : ReadsPrefix r w1 v1) (h1t : TruncOn r w1) (h2t : TruncOn (f v1) w2) :
    TruncOn (rbind r f) (w1 ++ w2) := by
  intro k hk
  rw [List.length_append] at hk
  by_cases hlt : k < w1.length
  · have htake : (w1 ++ w2).take k = w1.take k := by
      rw [List.take_append_eq_append_take, Nat.sub_eq_zero_of_le (le_of_lt hlt)]
      simp
    rw [htake]
    show rbind r f (w1.take k) = .error .truncated
    unfold rbind
    rw [h1t k hlt]
  · have hge : w1.length ≤ k := le_of_not_lt hlt
    have htake : (w1 ++ w2).take k = w1 ++ w2.take (k - w1.length) := by
      rw [List.take_append_eq_append_take, List.take_of_length_le hge]
    rw [htake]
    show rbind r f (w1 ++ w2.take (k - w1.length)) = .error .truncated
    unfold rbind
    rw [h1 (w2.take (k - w1.length))]
    exact h2t (k - w1.length) (by omega)

/-! ### Primitive codec lemmas -/

theorem toLE_length (n v : Nat) : (toLE n v).length = n := by
  induction n generalizing v with
  | zero => rfl
  | succ k ih => simp [toLE, ih]

theorem fromLE_toLE (n v : Nat) (h : v < 256 ^ n) : fromLE (toLE n v) = v := by
  induction n generalizing v with
  | zero =>
    simp [toLE, fromLE]
    omega
  | succ k ih =>
    have hdiv : v / 256 < 256 ^ k := by
      rw [Nat.div_lt_iff_lt_mul (by omega : 0 < 256)]
      rw [Nat.pow_succ] at h
      omega
    simp [toLE, fromLE, ih (v / 256) hdiv]
    omega

theorem readBytes_reads (l : List Nat) : ReadsPrefix (readBytes l.length) l l := by
  intro rest
  simp [readBytes, List.take_left, List.drop_left]

theorem readBytes_trunc {n : Nat} {w : List Nat} (hw : w.length = n) :
    TruncOn (readBytes n) w := by
  intro k hk
  have hlen : (w.take k).length = k := by
    rw [List.length_take]
    omega
  simp only [readBytes, hlen]
  rw [if_neg (by omega)]

theorem readUIntLE_reads (n v : Nat) (h : v < 256 ^ n) :
    ReadsPrefix (readUIntLE n) (toLE n v) v := by
  have h1 := readBytes_reads (toLE n v)
  rw [toLE_length] at h1
  have h2 := rbind_reads (f := fun l => rpure (fromLE l)) h1
    (rpure_reads (fromLE (toLE n v)))
  rw [List.append_nil, fromLE_toLE n v h] at h2
  exact h2

theorem readUIntLE_trunc {n : Nat} {w : List Nat} (hw : w.length = n) :
    TruncOn (readUIntLE n) w := by
  intro k hk
  show rbind (readBytes n) (fun l => rpure (fromLE l)) (w.take k) = .error .truncated
  unfold rbind
  rw [readBytes_trunc hw k hk]

theorem readUIntLE1_cons (b : Nat) : ReadsPrefix (readUIntLE 1) [b] b := by
  intro rest
  simp [readUIntLE, rbind, readBytes, rpure, fromLE]

theorem varIntTail_small {b : Nat} (h : b < 253) : varIntTail b = rpure b := by
  simp [varIntTail, h]

theorem varIntTail_253 : varIntTail 253 = readUIntLE 2 := by
  norm_num [varIntTail]

theorem varIntTail_254 : varIntTail 254 = readUIntLE 4 := by
  norm_num [varIntTail]

theorem varIntTail_255 : varIntTail 255 = readUIntLE 8 := by
  norm_num [varIntTail]

theorem readVarInt_reads (v : Nat) (h : v < 2 ^ 64) :
    ReadsPrefix readVarInt (writeVarInt v) v := by
  by_cases h1 : v < 253
  · have h2 : ReadsPrefix (varIntTail v) [] v := by
      rw [varIntTail_small h1]
      exact rpure_reads v
    have h3 : ReadsPrefix (rbind (readUIntLE 1) varIntTail) ([v] ++ []) v :=
      rbind_reads (readUIntLE1_cons v) h2
    rw [List.append_nil] at h3
    unfold writeVarInt
    rw [if_pos h1]
    exact h3
  · by_cases h2 : v < 65536
    · have hv : v < 256 ^ 2 := by
        have : (256 : Nat) ^ 2 = 65536 := by norm_num
        omega
      have hr : ReadsPrefix (varIntTail 253) (toLE 2 v) v := by
        rw [varIntTail_253]
        exact readUIntLE_reads 2 v hv
      have h3 : ReadsPrefix (rbind (readUIntLE 1) varIntTail) ([253] ++ toLE 2 v) v :=
        rbind_reads (readUIntLE1_cons 253) hr
      unfold writeVarInt
      rw [if_neg h1, if_pos h2]
      exact h3
    · by_cases h3 : v < 4294967296
      · have hv : v < 256 ^ 4 := by
          have : (256 : Nat) ^ 4 = 4294967296 := by norm_num
          omega
        have hr : ReadsPrefix (varIntTail 254) (toLE 4 v) v := by
          rw [varIntTail_254]
          exact readUIntLE_reads 4 v hv
        have h4 : ReadsPrefix (rbind (readUIntLE 1) varIntTail) ([254] ++ toLE 4 v) v :=
          rbind_reads (readUIntLE1_cons 254) hr
        unfold writeVarInt
        rw [if_neg h1, if_neg h2, if_pos h3]
        exact h4
      · have hv : v < 256 ^ 8 := by
          have : (256 : Nat) ^ 8 = 2 ^ 64 := by norm_num
          omega
        have hr : ReadsPrefix (varIntTail 255) (toLE 8 v) v := by
          rw [varIntTail_255]
          exact readUIntLE_reads 8 v hv
        have h4 : ReadsPrefix (rbind (readUIntLE 1) varIntTail) ([255] ++ toLE 8 v) v :=
          rbind_reads (readUIntLE1_cons 255) hr
        unfold writeVarInt
        rw [if_neg h1, if_neg h2, if_neg h3]
        exact h4

theorem readVarInt_trunc (v : Nat) : TruncOn readVarInt (writeVarInt v) := by
  have h1t : TruncOn (readUIntLE 1) [253] := readUIntLE_trunc rfl
  by_cases h1 : v < 253
  · have h3 : TruncOn (rbind (readUIntLE 1) varIntTail) ([v] ++ []) :=
      rbind_trunc (readUIntLE1_cons v) (readUIntLE_trunc rfl) (truncOn_nil _)
    rw [List.append_nil] at h3
    unfold writeVarInt
    rw [if_pos h1]
    exact h3
  · by_cases h2 : v < 65536
    · have hr : TruncOn (varIntTail 253) (toLE 2 v) := by
        rw [varIntTail_253]
        exact readUIntLE_trunc (toLE_length 2 v)
      have h3 : TruncOn (rbind (readUIntLE 1) varIntTail) ([253] ++ toLE 2 v) :=
        rbind_trunc (readUIntLE1_cons 253) h1t hr
      unfold writeVarInt
      rw [if_neg h1, if_pos h2]
      exact h3
    · by_cases h3 : v < 4294967296
      · have hr : TruncOn (varIntTail 254) (toLE 4 v) := by
          rw [varIntTail_254]
          exact readUIntLE_trunc (toLE_length 4 v)
        have h4 : TruncOn (rbind (readUIntLE 1) varIntTail) ([254] ++ toLE 4 v) :=
          rbind_trunc (readUIntLE1_cons 254) (readUIntLE_trunc rfl) hr
        unfold writeVarInt
        rw [if_neg h1, if_neg h2, if_pos h3]
        exact h4
      · have hr : TruncOn (varIntTail 255) (toLE 8 v) := by
          rw [varIntTail_255]
          exact readUIntLE_trunc (toLE_length 8 v)
        have h4 : TruncOn (rbind (readUIntLE 1) varIntTail) ([255] ++ toLE 8 v) :=
          rbind_trunc (readUIntLE1_cons 255) (readUIntLE_trunc rfl) hr
        unfold writeVarInt
        rw [if_neg h1, if_neg h2, if_neg h3]
        exact h4

theorem readVarBytes_reads (l : List Nat) (h : l.length < 2 ^ 64) :
    ReadsPrefix readVarBytes (writeVarBytes l) l := by
  have h2 : ReadsPrefix ((fun n => readBytes n) l.length) l l := readBytes_reads l
  exact rbind_reads (readVarInt_reads l.length h) h2

theorem readVarBytes_trunc (l : List Nat) (h : l.length < 2 ^ 64) :
    TruncOn readVarBytes (writeVarBytes l) := by
  have h2 : TruncOn ((fun n => readBytes n) l.length) l := readBytes_trunc rfl
  exact rbind_trunc (readVarInt_reads l.length h) (readVarInt_trunc l.length) h2

theorem readBool_reads (b : Bool) : ReadsPrefix readBool (writeBool b) b := by
  intro rest
  cases b <;> simp [readBool, writeBool, rbind, readBytes, rpure, fromLE]

theorem readBool_trunc {w : List Nat} (hw : w.length = 1) : TruncOn readBool w := by
  intro k hk
  show rbind (readBytes 1) (fun l => rpure (decide (fromLE l ≠ 0))) (w.take k) =
    .error .truncated
  unfold rbind
  rw [readBytes_trunc hw k hk]

theorem writeBool_length (b : Bool) : (writeBool b).length = 1 := by
  cases b <;> rfl

/-- Bounds of `ValidVP` restated in base-256 form. -/
theorem validVP_bounds (x : VersionPayload) (h : ValidVP x) :
    x.Version < 256 ^ 1 ∧ x.Services < 256 ^ 8 ∧ x.Timestamp < 256 ^ 4 ∧
      x.Port < 256 ^ 2 ∧ x.Nonce < 256 ^ 4 ∧ x.UserAgent.length < 2 ^ 64 ∧
      x.StartHeight < 256 ^ 4 := by
  obtain ⟨hV, hS, hT, hP, hN, hU, _hUb, hH⟩ := h
  norm_num at hV hS hT hP hN hH ⊢
  exact ⟨hV, hS, hT, hP, hN, hU, hH⟩

/-- `Deserialize` reads back exactly the bytes written by `Serialize`,
reconstructing the original payload. -/
theorem Deserialize_reads (x : VersionPayload) (h : ValidVP x) :
    ReadsPrefix VersionPayload.Deserialize (VersionPayload.Serialize x) x := by
  obtain ⟨hV, hS, hT, hP, hN, hU, hH⟩ := validVP_bounds x h
  have h8 : ReadsPrefix
      (rbind readBool fun relay =>
        rpure (⟨x.Version, x.Services, x.Timestamp, x.Port, x.Nonce, x.UserAgent,
          x.StartHeight, relay⟩ : VersionPayload))
      (writeBool x.Relay ++ []) x :=
    rbind_reads (readBool_reads x.Relay) (rpure_reads _)
  have h7 : ReadsPrefix
      (rbind (readUIntLE 4) fun startHeight =>
        rbind readBool fun relay =>
        rpure (⟨x.Version, x.Services, x.Timestamp, x.Port, x.Nonce, x.UserAgent,
          startHeight, relay⟩ : VersionPayload))
      (toLE 4 x.StartHeight ++ (writeBool x.Relay ++ [])) x :=
    rbind_reads (readUIntLE_reads 4 x.StartHeight hH) h8
  have h6 : ReadsPrefix
      (rbind readVarBytes fun userAgent =>
        rbind (readUIntLE 4) fun startHeight =>
        rbind readBool fun relay =>
        rpure (⟨x.Version, x.Services, x.Timestamp, x.Port, x.Nonce, userAgent,
          startHeight, relay⟩ : VersionPayload))
      (writeVarBytes x.UserAgent ++ (toLE 4 x.StartHeight ++ (writeBool x.Relay ++ []))) x :=
    rbind_reads (readVarBytes_reads x.UserAgent hU) h7
  have h5 : ReadsPrefix
      (rbind (readUIntLE 4) fun nonce =>
        rbind readVarBytes fun userAgent =>
        rbind (readUIntLE 4) fun startHeight =>
        rbind readBool fun relay =>
        rpure (⟨x.Version, x.Services, x.Timestamp, x.Port, nonce, userAgent,
          startHeight, relay⟩ : VersionPayload))
      (toLE 4 x.Nonce ++ (writeVarBytes x.UserAgent ++ (toLE 4 x.StartHeight ++
        (writeBool x.Relay ++ [])))) x :=
    rbind_reads (readUIntLE_reads 4 x.Nonce hN) h6
  have h4 : ReadsPrefix
      (rbind (readUIntLE 2) fun port =>
        rbind (readUIntLE 4) fun nonce =>
        rbind readVarBytes fun userAgent =>
        rbind (readUIntLE 4) fun startHeight =>
        rbind readBool fun relay =>
        rpure (⟨x.Version, x.Services, x.Timestamp, port, nonce, userAgent,
          startHeight, relay⟩ : VersionPayload))
      (toLE 2 x.Port ++ (toLE 4 x.Nonce ++ (writeVarBytes x.UserAgent ++
        (toLE 4 x.StartHeight ++ (writeBool x.Relay ++ []))))) x :=
    rbind_reads (readUIntLE_reads 2 x.Port hP) h5
  have h3 : ReadsPrefix
      (rbind (readUIntLE 4) fun timestamp =>
        rbind (readUIntLE 2) fun port =>
        rbind (readUIntLE 4) fun nonce =>
        rbind readVarBytes fun userAgent =>
        rbind (readUIntLE 4) fun startHeight =>
        rbind readBool fun relay =>
        rpure (⟨x.Version, x.Services, timestamp, port, nonce, userAgent,
          startHeight, relay⟩ : VersionPayload))
      (toLE 4 x.Timestamp ++ (toLE 2 x.Port ++ (toLE 4 x.Nonce ++
        (writeVarBytes x.UserAgent ++ (toLE 4 x.StartHeight ++
          (writeBool x.Relay ++ [])))))) x :=
    rbind_reads (readUIntLE_reads 4 x.Timestamp hT) h4
  have h2 : ReadsPrefix
      (rbind (readUIntLE 8) fun services =>
        rbind (readUIntLE 4) fun timestamp =>
        rbind (readUIntLE 2) fun port =>
        rbind (readUIntLE 4) fun nonce =>
        rbind readVarBytes fun userAgent =>
        rbind (readUIntLE 4) fun startHeight =>
        rbind readBool fun relay =>
        rpure (⟨x.Version, services, timestamp, port, nonce, userAgent,
          startHeight, relay⟩ : VersionPayload))
      (toLE 8 x.Services ++ (toLE 4 x.Timestamp ++ (toLE 2 x.Port ++
        (toLE 4 x.Nonce ++ (writeVarBytes x.UserAgent ++ (toLE 4 x.StartHeight ++
          (writeBool x.Relay ++ []))))))) x :=
    rbind_reads (readUIntLE_reads 8 x.Services hS) h3
  have h1 : ReadsPrefix
      (rbind (readUIntLE 1) fun version =>
        rbind (readUIntLE 8) fun services =>
        rbind (readUIntLE 4) fun timestamp =>
        rbind (readUIntLE 2) fun port =>
        rbind (readUIntLE 4) fun nonce =>
        rbind readVarBytes fun userAgent =>
        rbind (readUIntLE 4) fun startHeight =>
        rbind readBool fun relay =>
        rpure (⟨version, services, timestamp, port, nonce, userAgent,
          startHeight, relay⟩ : VersionPayload))
      (toLE 1 x.Version ++ (toLE 8 x.Services ++ (toLE 4 x.Timestamp ++
        (toLE 2 x.Port ++ (toLE 4 x.Nonce ++ (writeVarBytes x.UserAgent ++
          (toLE 4 x.StartHeight ++ (writeBool x.Relay ++ [])))))))) x :=
    rbind_reads (readUIntLE_reads 1 x.Version hV) h2
  have hw : VersionPayload.Serialize x =
      toLE 1 x.Version ++ (toLE 8 x.Services ++ (toLE 4 x.Timestamp ++
        (toLE 2 x.Port ++ (toLE 4 x.Nonce ++ (writeVarBytes x.UserAgent ++
          (toLE 4 x.StartHeight ++ (writeBool x.Relay ++ []))))))) := by
    simp [VersionPayload.Serialize, List.append_assoc]
  rw [hw]
  exact h1

/-- `Deserialize` fails with `Truncated` on every strict prefix of a valid
serialized payload. -/
theorem Deserialize_trunc (x : VersionPayload) (h : ValidVP x) :
    TruncOn VersionPayload.Deserialize (VersionPayload.Serialize x) := by
  obtain ⟨hV, hS, hT, hP, hN, hU, hH⟩ := validVP_bounds x h
  have t8 : TruncOn
      (rbind readBool fun relay =>
        rpure (⟨x.Version, x.Services, x.Timestamp, x.Port, x.Nonce, x.UserAgent,
          x.StartHeight, relay⟩ : VersionPayload))
      (writeBool x.Relay ++ []) :=
    rbind_trunc (readBool_reads x.Relay) (readBool_trunc (writeBool_length x.Relay))
      (truncOn_nil _)
  have t7 : TruncOn
      (rbind (readUIntLE 4) fun startHeight =>
        rbind readBool fun relay =>
        rpure (⟨x.Version, x.Services, x.Timestamp, x.Port, x.Nonce, x.UserAgent,
          startHeight, relay⟩ : VersionPayload))
      (toLE 4 x.StartHeight ++ (writeBool x.Relay ++ [])) :=
    rbind_trunc (readUIntLE_reads 4 x.StartHeight hH)
      (readUIntLE_trunc (toLE_length 4 x.StartHeight)) t8
  have t6 : TruncOn
      (rbind readVarBytes fun userAgent =>
        rbind (readUIntLE 4) fun startHeight =>
        rbind readBool fun relay =>
        rpure (⟨x.Version, x.Services, x.Timestamp, x.Port, x.Nonce, userAgent,
          startHeight, relay⟩ : VersionPayload))
      (writeVarBytes x.UserAgent ++ (toLE 4 x.StartHeight ++ (writeBool x.Relay ++ []))) :=
    rbind_trunc (readVarBytes_reads x.UserAgent hU) (readVarBytes_trunc x.UserAgent hU) t7
  have t5 : TruncOn
      (rbind (readUIntLE 4) fun nonce =>
        rbind readVarBytes fun userAgent =>
        rbind (readUIntLE 4) fun startHeight =>
        rbind readBool fun relay =>
        rpure (⟨x.Version, x.Services, x.Timestamp, x.Port, nonce, userAgent,
          startHeight, relay⟩ : VersionPayload))
      (toLE 4 x.Nonce ++ (writeVarBytes x.UserAgent ++ (toLE 4 x.StartHeight ++
        (writeBool x.Relay ++ [])))) :=
    rbind_trunc (readUIntLE_reads 4 x.Nonce hN) (readUIntLE_trunc (toLE_length 4 x.Nonce)) t6
  have t4 : TruncOn
      (rbind (readUIntLE 2) fun port =>
        rbind (readUIntLE 4) fun nonce =>
        rbind readVarBytes fun userAgent =>
        rbind (readUIntLE 4) fun startHeight =>
        rbind readBool fun relay =>
        rpure (⟨x.Version, x.Services, x.Timestamp, port, nonce, userAgent,
          startHeight, relay⟩ : VersionPayload))
      (toLE 2 x.Port ++ (toLE 4 x.Nonce ++ (writeVarBytes x.UserAgent ++
        (toLE 4 x.StartHeight ++ (writeBool x.Relay ++ []))))) :=
    rbind_trunc (readUIntLE_reads 2 x.Port hP) (readUIntLE_trunc (toLE_length 2 x.Port)) t5
  have t3 : TruncOn
      (rbind (readUIntLE 4) fun timestamp =>
        rbind (readUIntLE 2) fun port =>
        rbind (readUIntLE 4) fun nonce =>
        rbind readVarBytes fun userAgent =>
        rbind (readUIntLE 4) fun startHeight =>
        rbind readBool fun relay =>
        rpure (⟨x.Version, x.Services, timestamp, port, nonce, userAgent,
          startHeight, relay⟩ : VersionPayload))
      (toLE 4 x.Timestamp ++ (toLE 2 x.Port ++ (toLE 4 x.Nonce ++
        (writeVarBytes x.UserAgent ++ (toLE 4 x.StartHeight ++
          (writeBool x.Relay ++ [])))))) :=
    rbind_trunc (readUIntLE_reads 4 x.Timestamp hT)
      (readUIntLE_trunc (toLE_length 4 x.Timestamp)) t4
  have t2 : TruncOn
      (rbind (readUIntLE 8) fun services =>
        rbind (readUIntLE 4) fun timestamp =>
        rbind (readUIntLE 2) fun port =>
        rbind (readUIntLE 4) fun nonce =>
        rbind readVarBytes fun userAgent =>
        rbind (readUIntLE 4) fun startHeight =>
        rbind readBool fun relay =>
        rpure (⟨x.Version, services, timestamp, port, nonce, userAgent,
          startHeight, relay⟩ : VersionPayload))
      (toLE 8 x.Services ++ (toLE 4 x.Timestamp ++ (toLE 2 x.Port ++
        (toLE 4 x.Nonce ++ (writeVarBytes x.UserAgent ++ (toLE 4 x.StartHeight ++
          (writeBool x.Relay ++ []))))))) :=
    rbind_trunc (readUIntLE_reads 8 x.Services hS)
      (readUIntLE_trunc (toLE_length 8 x.Services)) t3
  have t1 : TruncOn
      (rbind (readUIntLE 1) fun version =>
        rbind (readUIntLE 8) fun services =>
        rbind (readUIntLE 4) fun timestamp =>
        rbind (readUIntLE 2) fun port =>
        rbind (readUIntLE 4) fun nonce =>
        rbind readVarBytes fun userAgent =>
        rbind (readUIntLE 4) fun startHeight =>
        rbind readBool fun relay =>
        rpure (⟨version, services, timestamp, port, nonce, userAgent,
          startHeight, relay⟩ : VersionPayload))
      (toLE 1 x.Version ++ (toLE 8 x.Services ++ (toLE 4 x.Timestamp ++
        (toLE 2 x.Port ++ (toLE 4 x.Nonce ++ (writeVarBytes x.UserAgent ++
          (toLE 4 x.StartHeight ++ (writeBool x.Relay ++ [])))))))) :=
    rbind_trunc (readUIntLE_reads 1 x.Version hV)
      (readUIntLE_trunc (toLE_length 1 x.Version)) t2
  have hw : VersionPayload.Serialize x =
      toLE 1 x.Version ++ (toLE 8 x.Services ++ (toLE 4 x.Timestamp ++
        (toLE 2 x.Port ++ (toLE 4 x.Nonce ++ (writeVarBytes x.UserAgent ++
          (toLE 4 x.StartHeight ++ (writeBool x.Relay ++ []))))))) := by
    simp [VersionPayload.Serialize, List.append_assoc]
  rw [hw]
  exact t1

/-- C1: for every valid `PeerIdentification` (`VersionPayload`) value — all
fields representable in their fixed widths, the user-agent byte length fitting
the varint prefix — decoding the bytes produced by encoding it yields the value
back, with the fields written and read in the fixed order Version, Services,
Timestamp, Port, Nonce, UserAgent, StartHeight, Relay. -/
theorem C1_decode_encode_roundtrip (x : VersionPayload) (h : ValidVP x) :
    VersionPayload.Deserialize (VersionPayload.Serialize x) = .ok (x, []) := by
  have h1 := Deserialize_reads x h []
  rwa [List.append_nil] at h1

/-- Witness for C1 at a concrete payload (user agent bytes of "NEO"). -/
theorem C1_decode_encode_roundtrip_witness :
    ValidVP ⟨0, 1, 1609459200, 10333, 42, [78, 69, 79], 123456, true⟩ ∧
      VersionPayload.Deserialize (VersionPayload.Serialize
        ⟨0, 1, 1609459200, 10333, 42, [78, 69, 79], 123456, true⟩) =
        .ok (⟨0, 1, 1609459200, 10333, 42, [78, 69, 79], 123456, true⟩, []) :=
  ⟨by decide, C1_decode_encode_roundtrip _ (by decide)⟩

/-- C4: for every valid encoded `PeerIdentification` message and every strict
prefix of it, `Deserialize` fails with the `Truncated` error; it is a total
function, so it never panics and never returns a partially-populated value. -/
theorem C4_strict_prefix_truncated (x : VersionPayload) (h : ValidVP x)
    (k : Nat) (hk : k < (VersionPayload.Serialize x).length) :
    VersionPayload.Deserialize ((VersionPayload.Serialize x).take k) =
      .error .truncated :=
  Deserialize_trunc x h k hk

/-- Witness for C4: a length-5 strict prefix of a concrete valid encoding. -/
theorem C4_strict_prefix_truncated_witness :
    ValidVP ⟨0, 1, 1609459200, 10333, 42, [78, 69, 79], 123456, true⟩ ∧
      5 < (VersionPayload.Serialize
        ⟨0, 1, 1609459200, 10333, 42, [78, 69, 79], 123456, true⟩).length ∧
      VersionPayload.Deserialize ((VersionPayload.Serialize
        ⟨0, 1, 1609459200, 10333, 42, [78, 69, 79], 123456, true⟩).take 5) =
        .error .truncated :=
  ⟨by decide, by decide,
    C4_strict_prefix_truncated _ (by decide) 5 (by decide)⟩

/-! ### `LimitedSizeDict` (neo/api/utils.py) -/

variable {K V : Type} [DecidableEq K]

/-- Lookup in an insertion-ordered association list (front = oldest).
This is `dict.get`: `none` when the key is absent. -/
def lsdGet : List (K × V) → K → Option V
  | [], _ => none
  | (a, v) :: t, k => if a = k then some v else lsdGet t k

/-- In-place value update, keeping the key's position — the behaviour of
`OrderedDict.__setitem__` on an existing key. -/
def lsdReplace : List (K × V) → K → V → List (K × V)
  | [], _, _ => []
  | (a, w) :: t, k, v => if a = k then (a, v) :: t else (a, w) :: lsdReplace t k v

/-- `LimitedSizeDict.__setitem__`: ordinary `OrderedDict` assignment (update in
place when present, append at the back when new) followed by
`_check_size_limit`, which pops items from the front (`popitem(last=False)`)
while the size exceeds `size_limit`. -/
def lsdSet (limit : Nat) (d : List (K × V)) (k : K) (v : V) : List (K × V) :=
  let d' := match lsdGet d k with
    | some _ => lsdReplace d k v
    | none => d ++ [(k, v)]
  d'.drop (d'.length - limit)

/-- The tracked keys, in eviction order (front evicted first). -/
def lsdKeys (d : List (K × V)) : List K := d.map Prod.fst

/-- Folding a batch of insertions through `__setitem__`. -/
def lsdInsertAll (limit : Nat) (d : List (K × V)) (kvs : List (K × V)) :
    List (K × V) :=
  kvs.foldl (fun acc p => lsdSet limit acc p.1 p.2) d

theorem drop_append_le {α : Type} :
    ∀ (n : Nat) (l1 l2 : List α), n ≤ l1.length →
      (l1 ++ l2).drop n = l1.drop n ++ l2 := by
  intro n l1
  induction l1 generalizing n with
  | nil =>
    intro l2 h
    simp at h
    subst h
    simp
  | cons a t ih =>
    intro l2 h
    cases n with
    | zero => simp
    | succ m =>
      simp only [List.cons_append, List.drop_succ_cons]
      exact ih m l2 (by simpa using h)

theorem lsdGet_append_single_self (d : List (K × V)) (k : K) (v : V)
    (h : lsdGet d k = none) : lsdGet (d ++ [(k, v)]) k = some v := by
  induction d with
  | nil => simp [lsdGet]
  | cons p t ih =>
    obtain ⟨a, w⟩ := p
    by_cases hak : a = k
    · simp [lsdGet, hak] at h
    · simp only [lsdGet, hak] at h
      simp only [List.cons_append, lsdGet, if_neg hak]
      exact ih h

theorem lsdGet_drop_none (d : List (K × V)) (k : K) (h : lsdGet d k = none) :
    ∀ n, lsdGet (d.drop n) k = none := by
  induction d with
  | nil => intro n; simp [lsdGet]
  | cons p t ih =>
    obtain ⟨a, w⟩ := p
    intro n
    cases n with
    | zero => simpa using h
    | succ m =>
      by_cases hak : a = k
      · simp [lsdGet, hak] at h
      · simp only [lsdGet, hak, if_neg hak] at h
        simpa using ih h m

theorem lsdGet_replace_self (d : List (K × V)) (k : K) (v : V) (c : V)
    (h : lsdGet d k = some c) : lsdGet (lsdReplace d k v) k = some v := by
  induction d with
  | nil => simp [lsdGet] at h
  | cons p t ih =>
    obtain ⟨a, w⟩ := p
    by_cases hak : a = k
    · simp [lsdReplace, hak, lsdGet]
    · simp only [lsdGet, if_neg hak] at h
      simp only [lsdReplace, if_neg hak, lsdGet]
      exact ih h

theorem lsdReplace_length (d : List (K × V)) (k : K) (v : V) :
    (lsdReplace d k v).length = d.length := by
  induction d with
  | nil => rfl
  | cons p t ih =>
    obtain ⟨a, w⟩ := p
    by_cases hak : a = k
    · simp [lsdReplace, hak]
    · simp [lsdReplace, hak, ih]

theorem lsdKeys_replace (d : List (K × V)) (k : K) (v : V) :
    lsdKeys (lsdReplace d k v) = lsdKeys d := by
  induction d with
  | nil => rfl
  | cons p t ih =>
    obtain ⟨a, w⟩ := p
    by_cases hak : a = k
    · simp [lsdReplace, hak, lsdKeys]
    · simp only [lsdReplace, if_neg hak]
      simp [lsdKeys] at ih ⊢
      exact ih

/-- Setting a fresh key appends it at the back, evicting from the front when
over the limit. -/
theorem lsdSet_fresh (limit : Nat) (d : List (K × V)) (k : K) (v : V)
    (h : lsdGet d k = none) :
    lsdSet limit d k v = (d ++ [(k, v)]).drop (d.length + 1 - limit) := by
  simp [lsdSet, h]

/-- Setting a present key (with the dict within its limit) replaces in place:
no move, no eviction. -/
theorem lsdSet_present (limit : Nat) (d : List (K × V)) (k : K) (v : V) (c : V)
    (h : lsdGet d k = some c) (hlen : d.length ≤ limit) :
    lsdSet limit d k v = lsdReplace d k v := by
  simp only [lsdSet, h]
  rw [lsdReplace_length]
  rw [Nat.sub_eq_zero_of_le hlen]
  exact List.drop_zero _

/-! ### Credential guard (neo/api/JSONRPC/auth.py) -/

/-- Credentials presented by a client: the supported `IUsernamePassword` kind,
or any other credential type (unsupported by this checker). -/
inductive Credentials where
  | usernamePassword (username password : String)
  | other
deriving DecidableEq

/-- The guard's failure modes: `UnauthorizedLogin` for bad credentials, and
`UnhandledCredentials` (the spec's `UnsupportedCredentialType`) for an
unsupported credential kind. -/
inductive AuthError where
  | unauthorized
  | unsupportedCredentialType
deriving DecidableEq

/-- The configured checker: the expected username and the stored derived key
(`to_aes_key` of the configured password). -/
structure BasicUserPassCredentialChecker where
  username : String
  password : String
deriving DecidableEq

/-- `BasicUserPassCredentialChecker.get_consecutive_errors`: look up the
count; when present and below 100, increment and store; at 100, report 100
and leave the history untouched; when absent, store and report 1. -/
def getConsecutiveErrors (h : List (String × Nat)) (u : String) :
    Nat × List (String × Nat) :=
  match lsdGet h u with
  | some c => if c < 100 then (c + 1, lsdSet 100 h u (c + 1)) else (c, h)
  | none => (1, lsdSet 100 h u 1)

/-- `BasicUserPassCredentialChecker.backoff`: `time.sleep(t * 2 ** (n - 1))`,
modelled as the slept duration in seconds. -/
def backoffDelay (n t : Nat) : Nat := t * 2 ^ (n - 1)

/-- `BasicUserPassCredentialChecker.requestAvatarId`, parametrised by the
external key-derivation function `to_aes_key`. Returns the outcome, the
failure history after the attempt, and the backoff delay (seconds) imposed on
the attempt. Unsupported credential kinds raise `UnhandledCredentials` before
any credential check; bad credentials record a failure and then back off for
`2 * 2^(n-1)` seconds before reporting `UnauthorizedLogin`. -/
def requestAvatarId (toAesKey : String → String)
    (c : BasicUserPassCredentialChecker) (creds : Credentials)
    (h : List (String × Nat)) :
    Except AuthError String × List (String × Nat) × Nat :=
  match creds with
  | .other => (.error .unsupportedCredentialType, h, 0)
  | .usernamePassword u p =>
    if u = c.username ∧ toAesKey p = c.password then
      (.ok u, h, 0)
    else
      let r := getConsecutiveErrors h u
      (.error .unauthorized, r.2, backoffDelay r.1 2)

/-- `N` consecutive authentication attempts with the same credentials,
threading the failure history; returns the `N`-th attempt's outcome, the
history after it, and the delay imposed on it. -/
def attemptIter (toAesKey : String → String)
    (c : BasicUserPassCredentialChecker) (u p : String)
    (h : List (String × Nat)) : Nat →
    Except AuthError String × List (String × Nat) × Nat
  | 0 => (.ok "", h, 0)
  | n + 1 =>
    requestAvatarId toAesKey c (.usernamePassword u p)
      (attemptIter toAesKey c u p h n).2.1

/-- Recording a failure for an untracked principal: count 1, tracked, history
still within the capacity. -/
theorem gce_fresh (h : List (String × Nat)) (u : String)
    (hg : lsdGet h u = none) :
    (getConsecutiveErrors h u).1 = 1 ∧
      lsdGet (getConsecutiveErrors h u).2 u = some 1 ∧
      (getConsecutiveErrors h u).2.length ≤ 100 := by
  have hset : lsdSet 100 h u 1 = (h ++ [(u, 1)]).drop (h.length + 1 - 100) :=
    lsdSet_fresh 100 h u 1 hg
  have hdropped : h.length + 1 - 100 ≤ h.length := by omega
  have happ : (h ++ [(u, 1)]).drop (h.length + 1 - 100) =
      h.drop (h.length + 1 - 100) ++ [(u, 1)] :=
    drop_append_le _ h [(u, 1)] hdropped
  refine ⟨by simp [getConsecutiveErrors, hg], ?_, ?_⟩
  · simp only [getConsecutiveErrors, hg]
    rw [hset, happ]
    exact lsdGet_append_single_self _ u 1 (lsdGet_drop_none h u hg _)
  · simp only [getConsecutiveErrors, hg]
    rw [hset]
    simp only [List.length_drop, List.length_append, List.length_singleton]
    omega

/-- Recording a failure for a tracked principal below the cap: count
increments, the entry is updated in place, length is unchanged. -/
theorem gce_present (h : List (String × Nat)) (u : String) (c : Nat)
    (hg : lsdGet h u = some c) (hc : c < 100) (hlen : h.length ≤ 100) :
    (getConsecutiveErrors h u).1 = c + 1 ∧
      lsdGet (getConsecutiveErrors h u).2 u = some (c + 1) ∧
      (getConsecutiveErrors h u).2.length ≤ 100 := by
  have hset : lsdSet 100 h u (c + 1) = lsdReplace h u (c + 1) :=
    lsdSet_present 100 h u (c + 1) c hg hlen
  refine ⟨by simp [getConsecutiveErrors, hg, hc], ?_, ?_⟩
  · simp only [getConsecutiveErrors, hg, if_pos hc]
    rw [hset]
    exact lsdGet_replace_self h u (c + 1) c hg
  · simp only [getConsecutiveErrors, hg, if_pos hc]
    rw [hset, lsdReplace_length]
    exact hlen

/-- Invariant of consecutive failed attempts by one principal: after the
`N`-th failure (`1 ≤ N ≤ 100`, principal initially untracked) the outcome is
`UnauthorizedLogin`, the delay is `2 * 2^(N-1)` seconds, the tracked count is
`N`, and the history stays within capacity. -/
theorem attemptIter_invariant (toAesKey : String → String)
    (c : BasicUserPassCredentialChecker) (u p : String)
    (h0 : List (String × Nat))
    (hwrong : ¬(u = c.username ∧ toAesKey p = c.password))
    (hfresh : lsdGet h0 u = none) :
    ∀ N, 1 ≤ N → N ≤ 100 →
      (attemptIter toAesKey c u p h0 N).1 = .error .unauthorized ∧
        (attemptIter toAesKey c u p h0 N).2.2 = 2 * 2 ^ (N - 1) ∧
        lsdGet (attemptIter toAesKey c u p h0 N).2.1 u = some N ∧
        (attemptIter toAesKey c u p h0 N).2.1.length ≤ 100 := by
  intro N
  induction N with
  | zero => intro h1 _; omega
  | succ n ih =>
    intro _ hle
    have estep : attemptIter toAesKey c u p h0 (n + 1) =
        (.error .unauthorized,
          (getConsecutiveErrors (attemptIter toAesKey c u p h0 n).2.1 u).2,
          backoffDelay
            (getConsecutiveErrors (attemptIter toAesKey c u p h0 n).2.1 u).1 2) := by
      show requestAvatarId toAesKey c (.usernamePassword u p)
        (attemptIter toAesKey c u p h0 n).2.1 = _
      simp only [requestAvatarId, if_neg hwrong]
    obtain ⟨hcnt, hget, hlen⟩ :
        (getConsecutiveErrors (attemptIter toAesKey c u p h0 n).2.1 u).1 = n + 1 ∧
          lsdGet (getConsecutiveErrors (attemptIter toAesKey c u p h0 n).2.1 u).2 u =
            some (n + 1) ∧
          (getConsecutiveErrors (attemptIter toAesKey c u p h0 n).2.1 u).2.length ≤
            100 := by
      cases Nat.eq_zero_or_pos n with
      | inl hn0 =>
        subst hn0
        have e0 : (attemptIter toAesKey c u p h0 0).2.1 = h0 := rfl
        rw [e0]
        exact gce_fresh h0 u hfresh
      | inr hn1 =>
        obtain ⟨_, _, hget, hlen⟩ := ih hn1 (by omega)
        exact gce_present _ u n hget (by omega) hlen
    rw [estep]
    refine ⟨rfl, ?_, hget, hlen⟩
    show backoffDelay
      (getConsecutiveErrors (attemptIter toAesKey c u p h0 n).2.1 u).1 2 =
      2 * 2 ^ (n + 1 - 1)
    rw [hcnt]
    rfl

/-- C2: on every failed username/password attempt the guard records the
failure, obtaining the consecutive-failure count `n`, and blocks for exactly
`2 * 2^(n-1)` seconds before reporting `Unauthorized`; for a single,
initially-untracked principal the `N`-th consecutive failure's delay is
`2^(N-1)` times the first failure's delay, up to the counter cap at 100. -/
theorem C2_exponential_backoff (toAesKey : String → String)
    (c : BasicUserPassCredentialChecker) (u p : String)
    (h0 : List (String × Nat)) (N : Nat)
    (hwrong : ¬(u = c.username ∧ toAesKey p = c.password))
    (hfresh : lsdGet h0 u = none) (h1 : 1 ≤ N) (h100 : N ≤ 100) :
    (attemptIter toAesKey c u p h0 N).1 = .error .unauthorized ∧
      (attemptIter toAesKey c u p h0 N).2.2 = 2 * 2 ^ (N - 1) ∧
      (attemptIter toAesKey c u p h0 N).2.2 =
        2 ^ (N - 1) * (attemptIter toAesKey c u p h0 1).2.2 := by
  obtain ⟨hout, hdel, _, _⟩ :=
    attemptIter_invariant toAesKey c u p h0 hwrong hfresh N h1 h100
  obtain ⟨_, hdel1, _, _⟩ :=
    attemptIter_invariant toAesKey c u p h0 hwrong hfresh 1 (by omega) (by omega)
  refine ⟨hout, hdel, ?_⟩
  rw [hdel, hdel1]
  ring

/-- Witness for C2 at `N = 3`: three consecutive wrong attempts delay 2s, 4s,
8s; the third delay is `2^2` times the first. -/
theorem C2_exponential_backoff_witness :
    ¬("admin" = "admin" ∧ id "wrong" = "secret") ∧
      lsdGet ([] : List (String × Nat)) "admin" = none ∧
      (attemptIter id ⟨"admin", "secret"⟩ "admin" "wrong" [] 3).1 =
        .error .unauthorized ∧
      (attemptIter id ⟨"admin", "secret"⟩ "admin" "wrong" [] 3).2.2 = 8 ∧
      (attemptIter id ⟨"admin", "secret"⟩ "admin" "wrong" [] 3).2.2 =
        2 ^ 2 * (attemptIter id ⟨"admin", "secret"⟩ "admin" "wrong" [] 1).2.2 := by
  have h := C2_exponential_backoff id ⟨"admin", "secret"⟩ "admin" "wrong" [] 3
    (by decide) (by decide) (by decide) (by decide)
  exact ⟨by decide, by decide, h.1, h.2.1, h.2.2⟩

/-- C8: an authentication attempt with credentials of an unsupported type
fails with the distinct `UnhandledCredentials` (`UnsupportedCredentialType`)
error, imposes no backoff delay, and leaves the failure history unchanged. -/
theorem C8_unsupported_credentials (toAesKey : String → String)
    (c : BasicUserPassCredentialChecker) (h : List (String × Nat)) :
    requestAvatarId toAesKey c .other h =
      (.error .unsupportedCredentialType, h, 0) :=
  rfl

/-- C9: a successful authentication (exact username match and derived-key
match) returns the authenticated principal with no backoff delay and leaves
the failure history completely unchanged — the principal's consecutive-failure
count is not reset. -/
theorem C9_success_preserves_history (toAesKey : String → String)
    (c : BasicUserPassCredentialChecker) (u p : String)
    (h : List (String × Nat))
    (hu : u = c.username) (hp : toAesKey p = c.password) :
    requestAvatarId toAesKey c (.usernamePassword u p) h = (.ok u, h, 0) := by
  simp [requestAvatarId, hu, hp]

/-- Witness for C9: a concrete successful login over a nonempty history (count
for "alice" stays at 7). -/
theorem C9_success_preserves_history_witness :
    "alice" = (⟨"alice", "pw"⟩ : BasicUserPassCredentialChecker).username ∧
      id "pw" = (⟨"alice", "pw"⟩ : BasicUserPassCredentialChecker).password ∧
      requestAvatarId id ⟨"alice", "pw"⟩ (.usernamePassword "alice" "pw")
        [("alice", 7)] = (.ok "alice", [("alice", 7)], 0) :=
  ⟨rfl, rfl,
    C9_success_preserves_history id ⟨"alice", "pw"⟩ "alice" "pw"
      [("alice", 7)] rfl rfl⟩

/-! ### Eviction order of `LimitedSizeDict` (claim C3) -/

theorem lsdGet_append_single_ne (d : List (K × V)) (a k : K) (v : V)
    (h : a ≠ k) : lsdGet (d ++ [(a, v)]) k = lsdGet d k := by
  induction d with
  | nil => simp [lsdGet, h]
  | cons q t ih =>
    obtain ⟨b, w⟩ := q
    by_cases hbk : b = k
    · simp [lsdGet, hbk]
    · simp [lsdGet, hbk, ih]

theorem lsdGet_none_of_not_mem (d : List (K × V)) (k : K)
    (h : k ∉ lsdKeys d) : lsdGet d k = none := by
  induction d with
  | nil => rfl
  | cons q t ih =>
    obtain ⟨a, w⟩ := q
    simp only [lsdKeys, List.map_cons, List.mem_cons] at h
    push_neg at h
    have hak : a ≠ k := Ne.symm h.1
    simp only [lsdGet, if_neg hak]
    exact ih (by simpa [lsdKeys] using h.2)

/-- Inserting a batch of fresh, pairwise-distinct keys that fits under the
capacity simply appends them in order. -/
theorem lsdInsertAll_fresh (limit : Nat) (d : List (K × V))
    (kvs : List (K × V))
    (hfresh : ∀ q ∈ kvs, lsdGet d q.1 = none)
    (hnodup : (kvs.map Prod.fst).Nodup)
    (hlen : d.length + kvs.length ≤ limit) :
    lsdInsertAll limit d kvs = d ++ kvs := by
  induction kvs generalizing d with
  | nil => simp [lsdInsertAll]
  | cons q t ih =>
    obtain ⟨k0, v0⟩ := q
    have hq : lsdGet d k0 = none := hfresh (k0, v0) (by simp)
    have hstep : lsdSet limit d k0 v0 = d ++ [(k0, v0)] := by
      rw [lsdSet_fresh limit d k0 v0 hq]
      have hz : d.length + 1 - limit = 0 := by
        simp only [List.length_cons] at hlen
        omega
      rw [hz]
      exact List.drop_zero _
    have hk0 : k0 ∉ t.map Prod.fst := by
      simp only [List.map_cons, List.nodup_cons] at hnodup
      exact hnodup.1
    have hfresh2 : ∀ q2 ∈ t, lsdGet (d ++ [(k0, v0)]) q2.1 = none := by
      intro q2 hq2
      have hne : k0 ≠ q2.1 := by
        intro he
        exact hk0 (he ▸ List.mem_map_of_mem Prod.fst hq2)
      rw [lsdGet_append_single_ne d k0 q2.1 v0 hne]
      exact hfresh q2 (List.mem_cons_of_mem _ hq2)
    have hnodup2 : (t.map Prod.fst).Nodup := by
      simp only [List.map_cons, List.nodup_cons] at hnodup
      exact hnodup.2
    have hlen2 : (d ++ [(k0, v0)]).length + t.length ≤ limit := by
      simp only [List.length_append, List.length_cons, List.length_nil] at hlen ⊢
      omega
    have hIH := ih (d ++ [(k0, v0)]) hfresh2 hnodup2 hlen2
    show lsdInsertAll limit (lsdSet limit d k0 v0) t = d ++ (k0, v0) :: t
    rw [hstep, hIH]
    simp

/-- C3 (amended): inserting failure records for 101 principals with pairwise
distinct keys into the empty capacity-100 dict leaves exactly the last 100, in
insertion order — the evicted entry is the earliest-inserted (here also the
head, hence it becomes untracked); and updating an already-tracked principal
keeps the key order unchanged (the principal is NOT moved to the most-recent
position), so eviction order is insertion order alone. -/
theorem C3_insertion_order_eviction (kvs : List (K × V))
    (hnodup : (kvs.map Prod.fst).Nodup) (hlen : kvs.length = 101) :
    lsdInsertAll 100 [] kvs = kvs.drop 1 ∧
      (lsdInsertAll 100 [] kvs).length = 100 ∧
      (∀ p, kvs.head? = some p → lsdGet (lsdInsertAll 100 [] kvs) p.1 = none) ∧
      (∀ (d : List (K × V)) (k : K) (v w : V), lsdGet d k = some w →
        d.length ≤ 100 → lsdKeys (lsdSet 100 d k v) = lsdKeys d) := by
  have hne : kvs ≠ [] := by
    intro he
    rw [he] at hlen
    simp at hlen
  have hsplit : kvs.dropLast ++ [kvs.getLast hne] = kvs :=
    List.dropLast_append_getLast hne
  have hlenDL : kvs.dropLast.length = 100 := by
    rw [List.length_dropLast, hlen]
  have hmain : lsdInsertAll 100 [] kvs = kvs.drop 1 := by
    have hfoldSplit : lsdInsertAll 100 ([] : List (K × V)) kvs =
        lsdSet 100 (lsdInsertAll 100 [] kvs.dropLast) (kvs.getLast hne).1
          (kvs.getLast hne).2 := by
      conv_lhs => rw [← hsplit]
      simp [lsdInsertAll, List.foldl_append]
    have hnodupDL : (kvs.dropLast.map Prod.fst).Nodup := by
      have : ((kvs.dropLast ++ [kvs.getLast hne]).map Prod.fst).Nodup := by
        rw [hsplit]
        exact hnodup
      rw [List.map_append] at this
      exact this.of_append_left
    have hfill : lsdInsertAll 100 ([] : List (K × V)) kvs.dropLast =
        kvs.dropLast := by
      have := lsdInsertAll_fresh 100 [] kvs.dropLast
        (fun q _ => rfl) hnodupDL (by simp [hlenDL])
      simpa using this
    have hlast_fresh : lsdGet kvs.dropLast (kvs.getLast hne).1 = none := by
      apply lsdGet_none_of_not_mem
      have hnd : ((kvs.dropLast ++ [kvs.getLast hne]).map Prod.fst).Nodup := by
        rw [hsplit]
        exact hnodup
      rw [List.map_append, List.nodup_append] at hnd
      intro hmem
      exact hnd.2.2 hmem (by simp)
    rw [hfoldSplit, hfill, lsdSet_fresh 100 _ _ _ hlast_fresh, hlenDL]
    have h1 : (100 : Nat) + 1 - 100 = 1 := by norm_num
    rw [h1]
    have hback : kvs.dropLast ++ [((kvs.getLast hne).1, (kvs.getLast hne).2)] =
        kvs := by
      simpa using hsplit
    rw [hback]
  refine ⟨hmain, ?_, ?_, ?_⟩
  · rw [hmain, List.length_drop, hlen]
  · intro p hp
    rw [hmain]
    apply lsdGet_none_of_not_mem
    obtain ⟨t, ht⟩ : ∃ t, kvs = p :: t := by
      cases kvs with
      | nil => simp at hp
      | cons q t =>
        simp only [List.head?_cons, Option.some_inj] at hp
        exact ⟨t, by rw [hp]⟩
    rw [ht]
    simp only [List.drop_succ_cons, List.drop_zero]
    rw [ht] at hnodup
    simp only [List.map_cons, List.nodup_cons] at hnodup
    exact hnodup.1
  · intro d k v w hg hdl
    rw [lsdSet_present 100 d k v w hg hdl]
    exact lsdKeys_replace d k v

/-- Witness for the amended C3 at 101 concrete principals `0, …, 100`. -/
theorem C3_insertion_order_eviction_witness :
    (((List.range 101).map (fun i => (i, 0))).map Prod.fst).Nodup ∧
      ((List.range 101).map (fun i => (i, 0))).length = 101 ∧
      lsdInsertAll 100 ([] : List (Nat × Nat))
          ((List.range 101).map (fun i => (i, 0))) =
        ((List.range 101).map (fun i => (i, 0))).drop 1 := by
  have h := C3_insertion_order_eviction
    ((List.range 101).map (fun i => (i, 0))) (by decide) (by decide)
  exact ⟨by decide, by decide, h.1⟩

set_option maxRecDepth 100000 in
/-- C3 as stated is false on the code: with capacity 100, insert principals
0–99, then update ("touch") principal 0, then insert the new principal 100.
Principal 0 — the most recently touched — is evicted (`none`), while principal
1 — the least recently touched — survives: `OrderedDict` assignment does not
move an existing key to the most-recent position. -/
theorem C3_counterexample :
    lsdGet (lsdSet 100 (lsdInsertAll 100 ([] : List (Nat × Nat))
        ((List.range 100).map (fun i => (i, 1)))) 0 2) 0 = some 2 ∧
      lsdGet (lsdSet 100 (lsdSet 100 (lsdInsertAll 100 ([] : List (Nat × Nat))
        ((List.range 100).map (fun i => (i, 1)))) 0 2) 100 1) 0 = none ∧
      lsdGet (lsdSet 100 (lsdSet 100 (lsdInsertAll 100 ([] : List (Nat × Nat))
        ((List.range 100).map (fun i => (i, 1)))) 0 2) 100 1) 1 = some 1 := by
  decide

/-! ### Shutdown tail of `main` (neo/bin/api_server.py) -/

/-- The four calls after `reactor.run()` returns: `NotificationDB.close()`,
`Blockchain.Default().Dispose()`, `NodeLeader.Instance().Shutdown()`, and
`wallet.Close()` when a wallet is open. -/
inductive ShutdownStep where
  | closeNotificationDB
  | disposeBlockchain
  | shutdownNodeLeader
  | closeWallet
deriving DecidableEq

/-- The shutdown steps in source order (the wallet close only when a wallet
is open). -/
def shutdownSteps (wallet : Bool) : List ShutdownStep :=
  [.closeNotificationDB, .disposeBlockchain, .shutdownNodeLeader] ++
    if wallet then [.closeWallet] else []

/-- Sequential execution with Python exception semantics: the steps are plain
statements with no `try`/`except`, so the first step that raises aborts the
remaining steps and the exception propagates. `fails` says which collaborator
calls raise. Returns the steps attempted, in order, and the propagated
exception's step, if any. -/
def runSteps (fails : ShutdownStep → Bool) : List ShutdownStep →
    List ShutdownStep × Option ShutdownStep
  | [] => ([], none)
  | s :: t =>
    if fails s then ([s], some s)
    else
      let r := runSteps fails t
      (s :: r.1, r.2)

/-- The whole shutdown tail. -/
def runShutdown (fails : ShutdownStep → Bool) (wallet : Bool) :
    List ShutdownStep × Option ShutdownStep :=
  runSteps fails (shutdownSteps wallet)

theorem runSteps_ok (fails : ShutdownStep → Bool) (l : List ShutdownStep)
    (h : ∀ s ∈ l, fails s = false) : runSteps fails l = (l, none) := by
  induction l with
  | nil => rfl
  | cons s t ih =>
    have hs : fails s = false := h s (by simp)
    simp only [runSteps, hs, Bool.false_eq_true, if_false]
    rw [ih (fun s2 hs2 => h s2 (List.mem_cons_of_mem _ hs2))]

theorem runSteps_fail (fails : ShutdownStep → Bool) (l1 : List ShutdownStep)
    (s : ShutdownStep) (l2 : List ShutdownStep)
    (h1 : ∀ t ∈ l1, fails t = false) (hs : fails s = true) :
    runSteps fails (l1 ++ s :: l2) = (l1 ++ [s], some s) := by
  induction l1 with
  | nil => simp [runSteps, hs]
  | cons a t ih =>
    have ha : fails a = false := h1 a (by simp)
    simp only [List.cons_append, runSteps, ha, Bool.false_eq_true, if_false,
      List.append_eq]
    rw [ih (fun u hu => h1 u (List.mem_cons_of_mem _ hu))]

/-- C5 (amended): after the reactor stops, the orchestrator attempts, in this
order, closing the notification indexer, disposing the ledger storage backend,
stopping the peer-network listener, and closing the wallet when one is open.
The steps carry no error handling: when no step raises, all of them execute in
that order and shutdown completes; when a step raises, the error propagates
(it is not caught) and the remaining steps are skipped. -/
theorem C5_shutdown_order_and_propagation (wallet : Bool)
    (fails : ShutdownStep → Bool) :
    ((∀ s, fails s = false) →
        runShutdown fails wallet = (shutdownSteps wallet, none)) ∧
      (∀ l1 s l2, shutdownSteps wallet = l1 ++ s :: l2 →
        (∀ t ∈ l1, fails t = false) → fails s = true →
        runShutdown fails wallet = (l1 ++ [s], some s)) := by
  constructor
  · intro h
    exact runSteps_ok fails (shutdownSteps wallet) (fun s _ => h s)
  · intro l1 s l2 hsplit h1 hs
    show runSteps fails (shutdownSteps wallet) = (l1 ++ [s], some s)
    rw [hsplit]
    exact runSteps_fail fails l1 s l2 h1 hs

/-- Witness for the amended C5: with a wallet open and the ledger-dispose step
raising, the run stops after the notification-close and dispose attempts and
the error propagates. -/
theorem C5_shutdown_order_and_propagation_witness :
    shutdownSteps true = [ShutdownStep.closeNotificationDB] ++
        ShutdownStep.disposeBlockchain ::
          [ShutdownStep.shutdownNodeLeader, ShutdownStep.closeWallet] ∧
      (∀ t ∈ [ShutdownStep.closeNotificationDB],
        (fun s => s == ShutdownStep.disposeBlockchain) t = false) ∧
      (fun s => s == ShutdownStep.disposeBlockchain)
        ShutdownStep.disposeBlockchain = true ∧
      runShutdown (fun s => s == ShutdownStep.disposeBlockchain) true =
        ([ShutdownStep.closeNotificationDB] ++ [ShutdownStep.disposeBlockchain],
          some ShutdownStep.disposeBlockchain) := by
  refine ⟨by decide, by decide, by decide, ?_⟩
  exact (C5_shutdown_order_and_propagation true
      (fun s => s == ShutdownStep.disposeBlockchain)).2
    [ShutdownStep.closeNotificationDB] ShutdownStep.disposeBlockchain
    [ShutdownStep.shutdownNodeLeader, ShutdownStep.closeWallet]
    (by decide) (by decide) (by decide)

/-- C5 as stated is false on the code: the shutdown tail has no `try`/`except`,
so when `NotificationDB.close()` raises, the error is re-raised (propagates)
and the later steps — disposing the ledger backend among them — never execute. -/
theorem C5_counterexample :
    (runShutdown (fun s => s == ShutdownStep.closeNotificationDB) true).2 =
        some ShutdownStep.closeNotificationDB ∧
      ShutdownStep.disposeBlockchain ∉
        (runShutdown (fun s => s == ShutdownStep.closeNotificationDB) true).1 := by
  decide

/-! ### Response pipeline (neo/api/utils.py) -/

def COMPRESS_FASTEST : Nat := 1
def BASE_STRING_SIZE : Nat := 49
def MTU_TCP_PACKET_SIZE : Nat := 1500
def COMPRESS_THRESHOLD : Nat := MTU_TCP_PACKET_SIZE + BASE_STRING_SIZE

/-- `request.setHeader`: replace the header's value when present, append it
otherwise. -/
def setHeader (hs : List (String × String)) (k v : String) :
    List (String × String) :=
  match lsdGet hs k with
  | some _ => lsdReplace hs k v
  | none => hs ++ [(k, v)]

/-- Is `needle` a prefix of `hay`? -/
def prefixOfChars : List Char → List Char → Bool
  | [], _ => true
  | _ :: _, [] => false
  | a :: as, b :: bs => a == b && prefixOfChars as bs

/-- Is `needle` a contiguous substring of `hay`? (Python's `needle in hay`.) -/
def hasSubstr (needle : List Char) : List Char → Bool
  | [] => needle.isEmpty
  | b :: t => prefixOfChars needle (b :: t) || hasSubstr needle t

/-- Python's `"gzip" in encoding`. -/
def strContains (hay needle : String) : Bool := hasSubstr needle.toList hay.toList

/-- The gzip gate of `json_response`: the request must carry at least one
`Accept-Encoding` header value containing the substring `gzip`. -/
def acceptsGzip : Option (List String) → Bool
  | none => false
  | some encs => encs.any (fun e => strContains e "gzip")

/-- The `_response_data` callback of the `json_response` decorator, with the
serialized payload as a string, the request's raw `Accept-Encoding` headers
(`none` when absent), the external `gzip.compress` as a parameter taking the
compression level, and the request's headers threaded explicitly. Sets
`Content-Type`; when the payload length exceeds `COMPRESS_THRESHOLD` and the
client accepts gzip, replaces the payload with its compression at level
`COMPRESS_FASTEST` and sets `Content-Encoding` and `Content-Length`. -/
def json_response (gzipCompress : Nat → String → List Nat)
    (acceptEncodings : Option (List String)) (responseData : String)
    (hs : List (String × String)) :
    (String ⊕ List Nat) × List (String × String) :=
  let hs1 := setHeader hs "Content-Type" "application/json"
  if COMPRESS_THRESHOLD < responseData.length then
    match acceptEncodings with
    | some encs =>
      if encs.any (fun e => strContains e "gzip") then
        let c := gzipCompress COMPRESS_FASTEST responseData
        (Sum.inr c,
          setHeader (setHeader hs1 "Content-Encoding" "gzip")
            "Content-Length" (toString c.length))
      else (Sum.inl responseData, hs1)
    | none => (Sum.inl responseData, hs1)
  else (Sum.inl responseData, hs1)

theorem lsdGet_lsdReplace_ne (d : List (K × V)) (k k2 : K) (v : V)
    (h : k ≠ k2) : lsdGet (lsdReplace d k v) k2 = lsdGet d k2 := by
  induction d with
  | nil => rfl
  | cons q t ih =>
    obtain ⟨a, w⟩ := q
    by_cases hak : a = k
    · subst hak
      simp [lsdReplace, lsdGet, h]
    · simp [lsdReplace, hak, lsdGet, ih]

theorem setHeader_get_self (hs : List (String × String)) (k v : String) :
    lsdGet (setHeader hs k v) k = some v := by
  unfold setHeader
  cases hg : lsdGet hs k with
  | some w => exact lsdGet_replace_self hs k v w hg
  | none => exact lsdGet_append_single_self hs k v hg

theorem setHeader_get_ne (hs : List (String × String)) (k v k2 : String)
    (h : k ≠ k2) : lsdGet (setHeader hs k v) k2 = lsdGet hs k2 := by
  unfold setHeader
  cases hg : lsdGet hs k with
  | some w => exact lsdGet_lsdReplace_ne hs k k2 v h
  | none => exact lsdGet_append_single_ne hs k k2 v h

/-- C6: a serialized payload longer than the threshold (1549 bytes) from a
client that declares gzip acceptance is compressed at the fastest level and
tagged with `Content-Encoding: gzip` and the updated `Content-Length`; a
payload at or below the threshold, or one whose request declares no gzip
acceptance, passes through uncompressed, with the `Content-Encoding` header
left exactly as it came in. -/
theorem C6_compression_gating (gzipCompress : Nat → String → List Nat)
    (enc : Option (List String)) (s : String) (hs : List (String × String)) :
    (COMPRESS_THRESHOLD < s.length → acceptsGzip enc = true →
        json_response gzipCompress enc s hs =
          (Sum.inr (gzipCompress COMPRESS_FASTEST s),
            setHeader (setHeader (setHeader hs "Content-Type" "application/json")
              "Content-Encoding" "gzip")
              "Content-Length" (toString (gzipCompress COMPRESS_FASTEST s).length)) ∧
        lsdGet (json_response gzipCompress enc s hs).2 "Content-Encoding" =
          some "gzip") ∧
      (s.length ≤ COMPRESS_THRESHOLD →
        json_response gzipCompress enc s hs =
          (Sum.inl s, setHeader hs "Content-Type" "application/json") ∧
        lsdGet (json_response gzipCompress enc s hs).2 "Content-Encoding" =
          lsdGet hs "Content-Encoding") ∧
      (acceptsGzip enc = false →
        json_response gzipCompress enc s hs =
          (Sum.inl s, setHeader hs "Content-Type" "application/json") ∧
        lsdGet (json_response gzipCompress enc s hs).2 "Content-Encoding" =
          lsdGet hs "Content-Encoding") := by
  have hCTCE : ("Content-Type" : String) ≠ "Content-Encoding" := by decide
  refine ⟨?_, ?_, ?_⟩
  · intro hlen hacc
    have he : json_response gzipCompress enc s hs =
        (Sum.inr (gzipCompress COMPRESS_FASTEST s),
          setHeader (setHeader (setHeader hs "Content-Type" "application/json")
            "Content-Encoding" "gzip")
            "Content-Length" (toString (gzipCompress COMPRESS_FASTEST s).length)) := by
      cases enc with
      | none => simp [acceptsGzip] at hacc
      | some encs =>
        have hany : encs.any (fun e => strContains e "gzip") = true := hacc
        simp [json_response, if_pos hlen, hany]
    refine ⟨he, ?_⟩
    rw [he]
    show lsdGet (setHeader _ "Content-Length" _) "Content-Encoding" = some "gzip"
    rw [setHeader_get_ne _ _ _ _ (by decide)]
    exact setHeader_get_self _ _ _
  · intro hlen
    have he : json_response gzipCompress enc s hs =
        (Sum.inl s, setHeader hs "Content-Type" "application/json") := by
      simp [json_response, Nat.not_lt_of_le hlen]
    refine ⟨he, ?_⟩
    rw [he]
    exact setHeader_get_ne _ _ _ _ hCTCE
  · intro hacc
    have he : json_response gzipCompress enc s hs =
        (Sum.inl s, setHeader hs "Content-Type" "application/json") := by
      cases enc with
      | none => simp [json_response]
      | some encs =>
        have hany : encs.any (fun e => strContains e "gzip") = false := hacc
        by_cases hlen : COMPRESS_THRESHOLD < s.length
        · simp [json_response, if_pos hlen, hany]
        · simp [json_response, hlen]
    refine ⟨he, ?_⟩
    rw [he]
    exact setHeader_get_ne _ _ _ _ hCTCE

set_option maxRecDepth 100000 in
/-- Witness for C6: a 1550-byte body with `Accept-Encoding: gzip` is
compressed and tagged (compression function instantiated concretely). -/
theorem C6_compression_gating_witness :
    COMPRESS_THRESHOLD < (String.mk (List.replicate 1550 'a')).length ∧
      acceptsGzip (some ["gzip"]) = true ∧
      json_response (fun _ _ => ([97] : List Nat)) (some ["gzip"])
          (String.mk (List.replicate 1550 'a')) [] =
        (Sum.inr [97],
          setHeader (setHeader (setHeader [] "Content-Type" "application/json")
            "Content-Encoding" "gzip")
            "Content-Length" (toString ([97] : List Nat).length)) := by
  have hlen : COMPRESS_THRESHOLD < (String.mk (List.replicate 1550 'a')).length := by
    decide
  have h := ((C6_compression_gating (fun _ _ => ([97] : List Nat)) (some ["gzip"])
    (String.mk (List.replicate 1550 'a')) []).1 hlen (by decide)).1
  exact ⟨hlen, by decide, h⟩

/-! ### CORS decorator (neo/api/utils.py) -/

/-- A handler outcome flowing down the deferred's success chain: either a
success body or a JSON-RPC error body (both are responses). -/
inductive HandlerRes where
  | success (body : String)
  | errorBody (body : String)
deriving DecidableEq

/-- The `cors_header` decorator: a callback on the handler's deferred that
sets the two CORS headers on the request and passes the result through
unchanged. (A failed deferred skips callbacks; responses are produced from
the success chain.) -/
def cors_header (res : Except String HandlerRes)
    (hs : List (String × String)) :
    Except String HandlerRes × List (String × String) :=
  match res with
  | .ok r =>
    (.ok r,
      setHeader (setHeader hs "Access-Control-Allow-Origin" "*")
        "Access-Control-Allow-Headers"
        "Content-Type, Access-Control-Allow-Headers, Authorization, X-Requested-With")
  | .error e => (.error e, hs)

/-- C7: every response produced through the pipeline — success bodies and
error bodies alike — carries `Access-Control-Allow-Origin: *` and the
`Access-Control-Allow-Headers` allow-list, and the result itself passes
through unchanged. -/
theorem C7_cors_headers (r : HandlerRes) (hs : List (String × String)) :
    lsdGet (cors_header (.ok r) hs).2 "Access-Control-Allow-Origin" =
        some "*" ∧
      lsdGet (cors_header (.ok r) hs).2 "Access-Control-Allow-Headers" =
        some "Content-Type, Access-Control-Allow-Headers, Authorization, X-Requested-With" ∧
      (cors_header (.ok r) hs).1 = .ok r := by
  refine ⟨?_, ?_, rfl⟩
  · show lsdGet (setHeader (setHeader hs "Access-Control-Allow-Origin" "*")
      "Access-Control-Allow-Headers" _) "Access-Control-Allow-Origin" = some "*"
    rw [setHeader_get_ne _ _ _ _ (by decide)]
    exact setHeader_get_self _ _ _
  · exact setHeader_get_self _ _ _

/-! ### Anonymous fallback of the guarded RPC resource (auth.py) -/

/-- The credential checkers of the Twisted portal: the configured
username/password checker or `AllowAnonymousAccess`. -/
inductive Checker where
  | basicUserPass (username password : String)
  | allowAnonymousAccess
deriving DecidableEq

/-- The avatar identifier: `ANONYMOUS` or an authenticated username. -/
inductive AvatarId where
  | anonymous
  | user (name : String)
deriving DecidableEq

/-- The resource served: the extended JSON-RPC API with authenticated
methods, or the plain (lower-privileged) one. -/
inductive ApiResource where
  | extendedJsonRpcApiAuth (port : Nat) (wallet : Bool)
  | extendedJsonRpcApi (port : Nat) (wallet : Bool)
deriving DecidableEq

/-- `HTTPAuthRealm`: holds the RPC port and the wallet flag. -/
structure HTTPAuthRealm where
  port_rpc : Nat
  wallet : Bool
deriving DecidableEq

/-- `HTTPAuthRealm.requestAvatar`: a non-`ANONYMOUS` avatar gets
`ExtendedJsonRpcApiAuth`, `ANONYMOUS` gets the plain `ExtendedJsonRpcApi`. -/
def HTTPAuthRealm.requestAvatar (realm : HTTPAuthRealm) (avatarId : AvatarId) :
    ApiResource :=
  match avatarId with
  | .anonymous => .extendedJsonRpcApi realm.port_rpc realm.wallet
  | .user _ => .extendedJsonRpcApiAuth realm.port_rpc realm.wallet

/-- The guarded resource: the portal's checkers and realm. -/
structure GuardedResource where
  checkers : List Checker
  realm : HTTPAuthRealm

/-- `guard_resource_with_http_auth`: always registers `AllowAnonymousAccess`
alongside the configured credential checker. -/
def guard_resource_with_http_auth (credentialChecker : Checker)
    (port_rpc : Nat) (wallet : Bool) : GuardedResource :=
  ⟨[credentialChecker, .allowAnonymousAccess], ⟨port_rpc, wallet⟩⟩

/-- Modelled from the spec: Twisted's `Portal`/`HTTPAuthSessionWrapper`
handling of a request presenting no credentials — anonymous credentials are
offered to each checker in turn; the username/password checker handles only
`IUsernamePassword` (so not anonymous), while `AllowAnonymousAccess` accepts
with the `ANONYMOUS` avatar id. -/
def checkerAnonymousAvatar : Checker → Option AvatarId
  | .basicUserPass _ _ => none
  | .allowAnonymousAccess => some .anonymous

/-- Modelled from the spec: serving a request with no credentials — the first
checker accepting anonymous credentials determines the avatar, and the realm
turns it into the resource served. `none` would mean a 401. -/
def serveAnonymous (g : GuardedResource) : Option ApiResource :=
  (g.checkers.findSome? checkerAnonymousAvatar).map g.realm.requestAvatar

/-- C10: whatever credential checker, port and wallet are configured, the
guarded resource registers `AllowAnonymousAccess`, and a request with no
credentials is served the lower-privileged non-authenticated API rather than
refused. -/
theorem C10_anonymous_always_admitted (credentialChecker : Checker)
    (port_rpc : Nat) (wallet : Bool) :
    Checker.allowAnonymousAccess ∈
        (guard_resource_with_http_auth credentialChecker port_rpc wallet).checkers ∧
      serveAnonymous (guard_resource_with_http_auth credentialChecker port_rpc wallet) =
        some (.extendedJsonRpcApi port_rpc wallet) := by
  constructor
  · simp [guard_resource_with_http_auth]
  · cases credentialChecker <;>
      simp [guard_resource_with_http_auth, serveAnonymous, checkerAnonymousAvatar,
        List.findSome?, HTTPAuthRealm.requestAvatar]
